import Mathlib

/-!
Verification development for the Smart-Video-Editor application.

The TypeScript sources are shallowly embedded here:
* `wrapText` and its helpers model the caption wrap routine (`wrapText` in the
  main component): the canvas `measureText` is abstracted as a function
  `List Char → ℚ`, and the draw calls are returned as a list of
  `(line, x, y)` triples instead of being performed on a canvas.
* `renderFrames` models the per-segment render loop of `composeVideoSegments`:
  each animation-frame tick is a `RenderTick` carrying the elapsed wall-clock
  time and the media element's paused flag, and the function returns the ticks
  on which a frame is actually drawn.
* `AppState` collects the React state hooks of the component; the handlers
  (`handleFileUpload`, `startAnalysis`, `handleRemoveSegment`,
  `handleGenerateFinalVideo`) become pure state transformers, with the
  outcome of each awaited external call passed in as an `Except` value.
-/

/-- Session status, from `types.ts` (`enum AppStatus`). -/
inductive AppStatus where
  | IDLE
  | UPLOADING
  | ANALYZING
  | READY
  | GENERATING
  | COMPLETED
  deriving DecidableEq, Repr

/-- A transcribed segment, from `types.ts` (`interface SubtitleSegment`).
Times are seconds; they are modelled as rationals. -/
structure SubtitleSegment where
  id : String
  startTime : ℚ
  endTime : ℚ
  text : String
  isRedundant : Bool
  confidence : ℚ
  deriving DecidableEq, Repr

/-- Metadata of the uploaded video, from `types.ts` (`interface VideoMetadata`);
the `File` handle is dropped, the object URL stands for the resource. -/
structure VideoMetadata where
  name : String
  size : Nat
  duration : ℚ
  url : String
  deriving DecidableEq, Repr

/-- A file chosen in the upload input (the parts of the DOM `File` the code reads). -/
structure UploadedFile where
  name : String
  size : Nat
  deriving DecidableEq, Repr

/-- The React state hooks of the `App` component, gathered in one record. -/
structure AppState where
  status : AppStatus
  video : Option VideoMetadata
  segments : List SubtitleSegment
  selectedSegments : List SubtitleSegment
  processingMsg : String
  error : Option String
  finalVideoUrl : Option String
  deriving DecidableEq, Repr

/-! ### Caption wrap (`wrapText`, main component lines 72–99)

The source iterates over `text.split('')` with index `n`, keeps a `line`
buffer and a `lines` array:

```
let testLine = line + words[n];
if (ctx.measureText(testLine).width > maxWidth && n > 0) {
  lines.push(line); line = words[n];
} else { line = testLine; }
```

after the loop `lines.push(line)`. `wrapGo` is that loop, carrying the
remaining characters, the index `n`, the buffer and the accumulator. -/

/-- The character loop of `wrapText`, exactly as in the source: the line is
closed when the tentative line is too wide AND the index `n` is positive. -/
def wrapGo (measure : List Char → ℚ) (maxWidth : ℚ) :
    List Char → Nat → List Char → List (List Char) → List (List Char)
  | [], _, line, lines => lines ++ [line]
  | c :: rest, n, line, lines =>
    if measure (line ++ [c]) > maxWidth ∧ n > 0 then
      wrapGo measure maxWidth rest (n + 1) [c] (lines ++ [line])
    else
      wrapGo measure maxWidth rest (n + 1) (line ++ [c]) lines

/-- The list of wrapped lines computed by `wrapText` before drawing. -/
def wrapLines (measure : List Char → ℚ) (maxWidth : ℚ) (text : List Char) :
    List (List Char) :=
  wrapGo measure maxWidth text 0 [] []

/-- The wrap loop as the specification words it: the line is closed when the
tentative line is too wide AND the buffer was non-empty before appending. -/
def wrapGoSpec (measure : List Char → ℚ) (maxWidth : ℚ) :
    List Char → List Char → List (List Char) → List (List Char)
  | [], line, lines => lines ++ [line]
  | c :: rest, line, lines =>
    if measure (line ++ [c]) > maxWidth ∧ line ≠ [] then
      wrapGoSpec measure maxWidth rest [c] (lines ++ [line])
    else
      wrapGoSpec measure maxWidth rest (line ++ [c]) lines

/-- The wrapped lines as described by the specification's algorithm. -/
def wrapLinesSpec (measure : List Char → ℚ) (maxWidth : ℚ) (text : List Char) :
    List (List Char) :=
  wrapGoSpec measure maxWidth text [] []

/-- The drawing loop of `wrapText` (lines 94–98): each line is emitted at the
current y, which then advances by `lineHeight`. -/
def drawGo (x lineHeight : ℚ) :
    List (List Char) → ℚ → List (List Char × ℚ × ℚ)
  | [], _ => []
  | l :: rest, currentY => (l, x, currentY) :: drawGo x lineHeight rest (currentY + lineHeight)

/-- Full `wrapText`: wrap the text, then emit the draw calls starting at
`y - totalHeight + lineHeight` (source lines 90–98), returned as a list of
`(line, x, y)` triples. -/
def wrapText (measure : List Char → ℚ) (text : List Char)
    (x y maxWidth lineHeight : ℚ) : List (List Char × ℚ × ℚ) :=
  drawGo x lineHeight (wrapLines measure maxWidth text)
    (y - (wrapLines measure maxWidth text).length * lineHeight + lineHeight)

/-! ### Per-segment render loop (`composeVideoSegments`, lines 162–196)

For each segment the source computes `durationMs = (endTime - startTime) * 1000`,
remembers `startRenderTime`, and each animation frame checks

```
if (elapsed >= durationMs || sourceVideo.paused) { sourceVideo.pause(); r(null); return; }
```

before drawing the frame. A `RenderTick` carries what the loop body reads on
one tick; `renderFrames` returns the ticks on which a frame is drawn. -/

/-- One animation-frame tick: the elapsed wall-clock milliseconds since the
segment's render start, and whether the media element reports paused. -/
structure RenderTick where
  elapsed : ℚ
  paused : Bool
  deriving DecidableEq, Repr

/-- `durationMs` of a segment: `(seg.endTime - seg.startTime) * 1000`. -/
def segmentDurationMs (seg : SubtitleSegment) : ℚ :=
  (seg.endTime - seg.startTime) * 1000

/-- The render loop: stop at the first tick with `elapsed ≥ durationMs` or a
paused source, otherwise draw a frame and continue. Returns the ticks on which
a frame was drawn. -/
def renderFrames (durationMs : ℚ) : List RenderTick → List RenderTick
  | [] => []
  | t :: rest =>
    if t.elapsed ≥ durationMs ∨ t.paused = true then []
    else t :: renderFrames durationMs rest

/-! ### Event handlers of the `App` component as state transformers -/

/-- `handleFileUpload` (lines 36–50): with no file it is a no-op; with a file
it stores the video metadata (object URL passed in for
`URL.createObjectURL(file)`) and moves the status to `ANALYZING`. The
subsequent `startAnalysis` call is modelled separately. -/
def handleFileUpload (st : AppState) (file : Option UploadedFile) (url : String) :
    AppState :=
  match file with
  | none => st
  | some f =>
    { st with
        video := some { name := f.name, size := f.size, duration := 0, url := url }
        status := AppStatus.ANALYZING }

/-- `startAnalysis` (lines 52–61), with the awaited result of
`analyzeVideoWithGemini` passed in: on success the segments are stored as-is
and the status becomes `READY`; on failure the error message (or the default
text when the message is empty, for `err.message || ...`) is recorded and the
status returns to `IDLE`. -/
def startAnalysis (st : AppState) (result : Except String (List SubtitleSegment)) :
    AppState :=
  match result with
  | Except.ok segs => { st with segments := segs, status := AppStatus.READY }
  | Except.error msg =>
    { st with
        error := some (if msg = "" then "分析失败" else msg)
        status := AppStatus.IDLE }

/-- The body of `prev.filter((_, i) => i !== index)` in `handleRemoveSegment`
(line 68), carrying the current element index. Indices are integers because a
caller may pass any number. -/
def removeFilterGo (index : ℤ) : List SubtitleSegment → ℤ → List SubtitleSegment
  | [], _ => []
  | a :: rest, i =>
    if i = index then removeFilterGo index rest (i + 1)
    else a :: removeFilterGo index rest (i + 1)

/-- `handleRemoveSegment` (lines 67–69): replace the selection queue by the
elements whose index differs from `index`; nothing else changes. -/
def handleRemoveSegment (st : AppState) (index : ℤ) : AppState :=
  { st with selectedSegments := removeFilterGo index st.selectedSegments 0 }

/-- `handleAddSegment` (lines 63–65): append the segment to the queue. -/
def handleAddSegment (st : AppState) (seg : SubtitleSegment) : AppState :=
  { st with selectedSegments := st.selectedSegments ++ [seg] }

/-- The error text set by `handleGenerateFinalVideo` on an empty queue. -/
def emptyQueueMsg : String := "请先在右侧列表中点击选择字幕片段"

/-- The state right after `handleGenerateFinalVideo` passes the emptiness
check: status `GENERATING`, preparing message set (lines 213–214). -/
def generateStart (st : AppState) : AppState :=
  { st with
      status := AppStatus.GENERATING
      processingMsg := "准备合成视频与音频..." }

/-- The continuation of `handleGenerateFinalVideo` once the awaited
`composeVideoSegments` settles (lines 216–225): on success store the artifact
URL and move to `COMPLETED`; on failure record the error (with the default
text for an empty message) and return to `READY`. -/
def generateFinish (st : AppState) (composeResult : Except String String) :
    AppState :=
  match composeResult with
  | Except.ok url =>
    { st with finalVideoUrl := some url, status := AppStatus.COMPLETED }
  | Except.error msg =>
    { st with
        error := some ("合成视频失败: " ++ (if msg = "" then "未知错误" else msg))
        status := AppStatus.READY }

/-- `handleGenerateFinalVideo` (lines 207–226) end to end: an empty queue only
sets the error message; otherwise the generating state is entered and the
composition outcome is applied. -/
def handleGenerateFinalVideo (st : AppState) (composeResult : Except String String) :
    AppState :=
  if st.selectedSegments.length = 0 then
    { st with error := some emptyQueueMsg }
  else
    generateFinish (generateStart st) composeResult

/-! ## Lemmas about the wrap loop -/

/-- In the wrap loop, the buffer is empty exactly at index 0, so the source's
`n > 0` test agrees with the specification's `buffer non-empty` test. -/
theorem wrapGo_eq_wrapGoSpec (measure : List Char → ℚ) (maxWidth : ℚ) :
    ∀ (rest : List Char) (n : Nat) (line : List Char) (lines : List (List Char)),
      (line = [] ↔ n = 0) →
      wrapGo measure maxWidth rest n line lines
        = wrapGoSpec measure maxWidth rest line lines := by
  intro rest
  induction rest with
  | nil => intro n line lines _; rfl
  | cons c cs ih =>
    intro n line lines h
    have hiff : (measure (line ++ [c]) > maxWidth ∧ n > 0)
        ↔ (measure (line ++ [c]) > maxWidth ∧ line ≠ []) := by
      constructor
      · rintro ⟨hw, hn⟩
        exact ⟨hw, fun he => by simp [h.mp he] at hn⟩
      · rintro ⟨hw, hl⟩
        refine ⟨hw, Nat.pos_of_ne_zero fun hz => hl (h.mpr hz)⟩
    by_cases hc : measure (line ++ [c]) > maxWidth ∧ n > 0
    · have hc' : measure (line ++ [c]) > maxWidth ∧ line ≠ [] := hiff.mp hc
      simp only [wrapGo, wrapGoSpec, if_pos hc, if_pos hc']
      exact ih (n + 1) [c] (lines ++ [line]) (by simp)
    · have hc' : ¬(measure (line ++ [c]) > maxWidth ∧ line ≠ []) :=
        fun hx => hc (hiff.mpr hx)
      simp only [wrapGo, wrapGoSpec, if_neg hc, if_neg hc']
      exact ih (n + 1) (line ++ [c]) lines (by simp)

/-- Concatenation invariant of the wrap loop: the emitted lines, the current
buffer and the remaining input always concatenate to the processed text. -/
theorem wrapGo_join (measure : List Char → ℚ) (maxWidth : ℚ) :
    ∀ (rest : List Char) (n : Nat) (line : List Char) (lines : List (List Char)),
      (wrapGo measure maxWidth rest n line lines).flatten
        = lines.flatten ++ line ++ rest := by
  intro rest
  induction rest with
  | nil =>
    intro n line lines
    simp [wrapGo]
  | cons c cs ih =>
    intro n line lines
    by_cases hc : measure (line ++ [c]) > maxWidth ∧ n > 0
    · simp only [wrapGo, if_pos hc]
      rw [ih]
      simp
    · simp only [wrapGo, if_neg hc]
      rw [ih]
      simp

/-- The wrap loop yields only non-empty lines when the buffer and all lines
emitted so far are non-empty. -/
theorem wrapGo_ne_nil_of_mem (measure : List Char → ℚ) (maxWidth : ℚ) :
    ∀ (rest : List Char) (n : Nat) (line : List Char) (lines : List (List Char)),
      line ≠ [] → (∀ l ∈ lines, l ≠ []) →
      ∀ l ∈ wrapGo measure maxWidth rest n line lines, l ≠ [] := by
  intro rest
  induction rest with
  | nil =>
    intro n line lines hline hlines l hl
    simp only [wrapGo, List.mem_append, List.mem_singleton] at hl
    rcases hl with hl | hl
    · exact hlines l hl
    · exact hl ▸ hline
  | cons c cs ih =>
    intro n line lines hline hlines l hl
    by_cases hc : measure (line ++ [c]) > maxWidth ∧ n > 0
    · simp only [wrapGo, if_pos hc] at hl
      refine ih (n + 1) [c] (lines ++ [line]) (by simp) ?_ l hl
      intro l' hl'
      simp only [List.mem_append, List.mem_singleton] at hl'
      rcases hl' with hl' | hl'
      · exact hlines l' hl'
      · exact hl' ▸ hline
    · simp only [wrapGo, if_neg hc] at hl
      exact ih (n + 1) (line ++ [c]) lines (by simp) hlines l hl

/-- The wrap loop never returns an empty list of lines. -/
theorem wrapGo_ne_nil (measure : List Char → ℚ) (maxWidth : ℚ) :
    ∀ (rest : List Char) (n : Nat) (line : List Char) (lines : List (List Char)),
      wrapGo measure maxWidth rest n line lines ≠ [] := by
  intro rest
  induction rest with
  | nil => intro n line lines; simp [wrapGo]
  | cons c cs ih =>
    intro n line lines
    by_cases hc : measure (line ++ [c]) > maxWidth ∧ n > 0
    · simp only [wrapGo, if_pos hc]; exact ih _ _ _
    · simp only [wrapGo, if_neg hc]; exact ih _ _ _

/-! ## Lemmas about the drawing loop -/

/-- The drawing loop emits exactly the lines it was given, in order. -/
theorem drawGo_map_fst (x lineHeight : ℚ) :
    ∀ (ls : List (List Char)) (cy : ℚ),
      (drawGo x lineHeight ls cy).map (fun p => p.1) = ls := by
  intro ls
  induction ls with
  | nil => intro cy; rfl
  | cons l rest ih => intro cy; simp [drawGo, ih]

/-- The y coordinate of the last draw call: the starting y plus one
`lineHeight` step per further line. -/
theorem drawGo_last_y (x lineHeight : ℚ) :
    ∀ (ls : List (List Char)) (l : List Char) (cy : ℚ),
      ((drawGo x lineHeight (l :: ls) cy).map (fun p => p.2.2)).getLast?
        = some (cy + ls.length * lineHeight) := by
  intro ls
  induction ls with
  | nil =>
    intro l cy
    simp [drawGo]
  | cons l2 rest ih =>
    intro l cy
    simp only [drawGo, List.map_cons, List.getLast?_cons_cons]
    have h2 := ih l2 (cy + lineHeight)
    simp only [drawGo, List.map_cons] at h2
    rw [h2]
    congr 1
    push_cast [List.length_cons]
    ring

/-- Consecutive draw calls differ by exactly `lineHeight` in y. -/
theorem drawGo_chain (x lineHeight : ℚ) :
    ∀ (ls : List (List Char)) (cy : ℚ),
      List.Chain' (fun a b : List Char × ℚ × ℚ => b.2.2 = a.2.2 + lineHeight)
        (drawGo x lineHeight ls cy) := by
  intro ls
  induction ls with
  | nil => intro cy; simp [drawGo]
  | cons l rest ih =>
    intro cy
    cases rest with
    | nil => simp [drawGo]
    | cons l2 rest2 =>
      simp only [drawGo, List.chain'_cons]
      refine ⟨?_, ih (cy + lineHeight)⟩
      trivial

/-! ## Claims about the caption layout engine -/

/-- C1: the caption wrap routine follows the greedy character-by-character
algorithm: starting from an empty buffer it tentatively appends each
character, closes the current line (pushes the buffer, resets it to just this
character) exactly when the tentative line's measured width exceeds `maxWidth`
and the buffer was non-empty before appending (the source's `n > 0` test
coincides with that), otherwise keeps accumulating; the final buffer is pushed
as the last line, and a single character — even one whose width alone exceeds
`maxWidth` — becomes its own line with no further sub-splitting. -/
theorem wrapLines_follows_greedy_spec :
    ∀ (measure : List Char → ℚ) (maxWidth : ℚ) (text : List Char) (c : Char),
      wrapLines measure maxWidth text = wrapLinesSpec measure maxWidth text ∧
      wrapLines measure maxWidth [c] = [[c]] := by
  intro measure maxWidth text c
  constructor
  · exact wrapGo_eq_wrapGoSpec measure maxWidth text 0 [] [] (by simp)
  · simp [wrapLines, wrapGo]

/-- C10: for every measure function, every `maxWidth` (no restriction) and
every `lineHeight`, concatenating in order the lines of the draw calls
produced by `wrapText` yields exactly the original text; the empty text yields
exactly one drawn line, the empty string. -/
theorem wrapText_roundtrip :
    (∀ (measure : List Char → ℚ) (text : List Char) (x y maxWidth lineHeight : ℚ),
      ((wrapText measure text x y maxWidth lineHeight).map (fun p => p.1)).flatten
        = text) ∧
    (∀ (measure : List Char → ℚ) (x y maxWidth lineHeight : ℚ),
      wrapText measure [] x y maxWidth lineHeight = [([], x, y)]) := by
  constructor
  · intro measure text x y maxWidth lineHeight
    rw [wrapText, drawGo_map_fst, wrapLines, wrapGo_join]
    simp
  · intro measure x y maxWidth lineHeight
    have hy : y - (1 : ℚ) * lineHeight + lineHeight = y := by ring
    simp [wrapText, wrapLines, wrapGo, drawGo, hy]

/-- C2: when `maxWidth` is smaller than the measured width of every single
character, every line produced by the wrap routine for a non-empty text has
length at least 1 (no empty lines), and concatenating all produced lines in
order reproduces the original text exactly. -/
theorem wrapLines_no_empty_lines_roundtrip (measure : List Char → ℚ)
    (maxWidth : ℚ) (text : List Char)
    (hw : ∀ c : Char, measure [c] > maxWidth) (ht : text ≠ []) :
    (∀ l ∈ wrapLines measure maxWidth text, 1 ≤ l.length) ∧
    (wrapLines measure maxWidth text).flatten = text := by
  constructor
  · intro l hl
    obtain ⟨c, cs, rfl⟩ := List.exists_cons_of_ne_nil ht
    rw [wrapLines] at hl
    have h0 : ¬(measure ([] ++ [c]) > maxWidth ∧ (0 : Nat) > 0) := by simp
    rw [wrapGo, if_neg h0] at hl
    have hne : l ≠ [] :=
      wrapGo_ne_nil_of_mem measure maxWidth cs 1 ([] ++ [c]) [] (by simp)
        (by simp) l hl
    exact List.length_pos.mpr hne
  · rw [wrapLines, wrapGo_join]
    simp

/-- A width measure assigning width 1 to every character (the length of the
string), used as a concrete font metric. -/
def charCountWidth (s : List Char) : ℚ := s.length

/-- Witness for C2: with unit character widths and `maxWidth = 0`, wrapping
`"ab"` yields only non-empty lines and round-trips. -/
theorem wrapLines_no_empty_lines_roundtrip_witness :
    (∀ l ∈ wrapLines charCountWidth 0 ['a', 'b'], 1 ≤ l.length) ∧
    (wrapLines charCountWidth 0 ['a', 'b']).flatten = ['a', 'b'] :=
  wrapLines_no_empty_lines_roundtrip charCountWidth 0 ['a', 'b']
    (fun c => by norm_num [charCountWidth]) (by simp)

/-- C3: in the vertical placement computed by the caption wrap routine, the
last line is always drawn exactly at the bottom anchor `y` (the produced line
sequence is never empty), and each draw call is exactly `lineHeight` below its
predecessor, i.e. each preceding line sits exactly `lineHeight` above the line
that follows it. -/
theorem wrapText_bottom_anchored :
    ∀ (measure : List Char → ℚ) (text : List Char) (x y maxWidth lineHeight : ℚ),
      ((wrapText measure text x y maxWidth lineHeight).map (fun p => p.2.2)).getLast?
        = some y ∧
      List.Chain' (fun a b : List Char × ℚ × ℚ => b.2.2 = a.2.2 + lineHeight)
        (wrapText measure text x y maxWidth lineHeight) := by
  intro measure text x y maxWidth lineHeight
  constructor
  · obtain ⟨l, ls, hls⟩ :=
      List.exists_cons_of_ne_nil (wrapGo_ne_nil measure maxWidth text 0 [] [])
    have hw : wrapLines measure maxWidth text = l :: ls := hls
    rw [wrapText, hw, drawGo_last_y]
    congr 1
    push_cast [List.length_cons]
    ring
  · exact drawGo_chain x lineHeight _ _

/-! ## Claims about the per-segment render loop -/

/-- Every drawn frame's tick satisfies neither stop condition. -/
theorem renderFrames_mem (durationMs : ℚ) :
    ∀ (ticks : List RenderTick), ∀ t ∈ renderFrames durationMs ticks,
      t.elapsed < durationMs ∧ t.paused = false := by
  intro ticks
  induction ticks with
  | nil => intro t ht; simp [renderFrames] at ht
  | cons t0 rest ih =>
    intro t ht
    by_cases hc : t0.elapsed ≥ durationMs ∨ t0.paused = true
    · simp [renderFrames, if_pos hc] at ht
    · rw [renderFrames, if_neg hc] at ht
      push_neg at hc
      rcases List.mem_cons.mp ht with rfl | ht'
      · exact ⟨hc.1, by simpa using hc.2⟩
      · exact ih t ht'

/-- The render loop never draws past a stop tick: if any prefix tick
satisfies a stop condition, no frame with that index or later is drawn. -/
theorem renderFrames_stops_at (durationMs : ℚ) :
    ∀ (ticks : List RenderTick) (i : Nat) (hi : i < ticks.length),
      ((ticks.get ⟨i, hi⟩).elapsed ≥ durationMs ∨ (ticks.get ⟨i, hi⟩).paused = true) →
      (renderFrames durationMs ticks).length ≤ i := by
  intro ticks
  induction ticks with
  | nil => intro i hi; simp at hi
  | cons t0 rest ih =>
    intro i hi hc
    by_cases h0 : t0.elapsed ≥ durationMs ∨ t0.paused = true
    · rw [renderFrames, if_pos h0]
      simp
    · rw [renderFrames, if_neg h0]
      cases i with
      | zero => exact absurd hc h0
      | succ j =>
        have hj : j < rest.length := by
          simpa using Nat.lt_of_succ_lt_succ hi
        have := ih j hj (by simpa using hc)
        simpa [Nat.succ_le_succ_iff] using Nat.succ_le_succ this

/-- C4: the per-segment render loop of `composeVideoSegments` stops when
either the elapsed wall-clock time since the segment's render start reaches
`endTime - startTime` converted to milliseconds, or the source media reports
it is paused, whichever happens first: every frame actually drawn has elapsed
time strictly below the duration and a playing source, and once any tick
satisfies either condition no frame at or after that tick is drawn. -/
theorem renderLoop_terminates (seg : SubtitleSegment) (ticks : List RenderTick)
    (i : Nat) (hi : i < ticks.length)
    (hc : (ticks.get ⟨i, hi⟩).elapsed ≥ segmentDurationMs seg ∨
          (ticks.get ⟨i, hi⟩).paused = true) :
    (∀ t ∈ renderFrames (segmentDurationMs seg) ticks,
        t.elapsed < segmentDurationMs seg ∧ t.paused = false) ∧
    (renderFrames (segmentDurationMs seg) ticks).length ≤ i := by
  exact ⟨renderFrames_mem (segmentDurationMs seg) ticks,
         renderFrames_stops_at (segmentDurationMs seg) ticks i hi hc⟩

/-- A concrete segment lasting one second. -/
def oneSecondSeg : SubtitleSegment :=
  { id := "s1", startTime := 0, endTime := 1, text := "字幕",
    isRedundant := false, confidence := 1 }

/-- Witness for C4: a tick sequence whose second tick reaches the 1000 ms
duration; the theorem applies and the loop draws at most the first frame. -/
theorem renderLoop_terminates_witness :
    (∀ t ∈ renderFrames (segmentDurationMs oneSecondSeg)
        [⟨0, false⟩, ⟨1000, false⟩, ⟨1100, false⟩],
        t.elapsed < segmentDurationMs oneSecondSeg ∧ t.paused = false) ∧
    (renderFrames (segmentDurationMs oneSecondSeg)
        [⟨0, false⟩, ⟨1000, false⟩, ⟨1100, false⟩]).length ≤ 1 :=
  renderLoop_terminates oneSecondSeg [⟨0, false⟩, ⟨1000, false⟩, ⟨1100, false⟩]
    1 (by decide) (by left; norm_num [segmentDurationMs, oneSecondSeg])

/-! ## Lemmas about the removal filter -/

/-- When the target index lies outside the index range of the remaining list,
the filter keeps every element. -/
theorem removeFilterGo_out_of_range (index : ℤ) :
    ∀ (l : List SubtitleSegment) (i : ℤ),
      (index < i ∨ i + l.length ≤ index) → removeFilterGo index l i = l := by
  intro l
  induction l with
  | nil => intro i _; rfl
  | cons a rest ih =>
    intro i h
    push_cast [List.length_cons] at h
    have hne : ¬(i = index) := by omega
    simp only [removeFilterGo, if_neg hne]
    rw [ih (i + 1) (by omega)]

/-- When the target index is in range, the filter removes exactly the element
at that offset and keeps the rest in order. -/
theorem removeFilterGo_in_range (index : ℤ) :
    ∀ (l : List SubtitleSegment) (i : ℤ),
      i ≤ index → index < i + l.length →
      removeFilterGo index l i
        = l.take (index - i).toNat ++ l.drop ((index - i).toNat + 1) := by
  intro l
  induction l with
  | nil =>
    intro i h1 h2
    simp only [List.length_nil, Nat.cast_zero, add_zero] at h2
    omega
  | cons a rest ih =>
    intro i h1 h2
    push_cast [List.length_cons] at h2
    by_cases he : i = index
    · subst he
      simp only [removeFilterGo, if_pos rfl]
      rw [removeFilterGo_out_of_range i rest (i + 1) (Or.inl (by omega))]
      have hz : (i - i).toNat = 0 := by omega
      simp [hz]
    · simp only [removeFilterGo, if_neg he]
      have hk : (index - i).toNat = (index - (i + 1)).toNat + 1 := by omega
      rw [ih (i + 1) (by omega) (by omega), hk]
      simp [List.take_succ_cons, List.drop_succ_cons]

/-! ## Claims about the event handlers -/

/-- A segment with `endTime ≤ startTime`, as the untrusted analysis
collaborator may deliver it. -/
def invalidSeg : SubtitleSegment :=
  { id := "bad", startTime := 5, endTime := 3, text := "x",
    isRedundant := false, confidence := 1 }

/-- An idle session with nothing stored yet. -/
def stIdle : AppState :=
  { status := AppStatus.IDLE, video := none, segments := [],
    selectedSegments := [], processingMsg := "", error := none,
    finalVideoUrl := none }

/-- A ready session with one queued segment and no error. -/
def stSingleQueue : AppState :=
  { status := AppStatus.READY, video := none, segments := [oneSecondSeg],
    selectedSegments := [oneSecondSeg], processingMsg := "", error := none,
    finalVideoUrl := none }

/-- C5 counterexample: removing at the out-of-range index 5 on a one-element
queue does not fail — the state is returned completely unchanged, and in
particular the error channel stays empty, contradicting that `removeAt`
out-of-range fails with a `QueueIndexError` / `IndexOutOfRange` error. -/
theorem handleRemoveSegment_out_of_range_silent :
    handleRemoveSegment stSingleQueue 5 = stSingleQueue ∧
    (handleRemoveSegment stSingleQueue 5).error = none :=
  ⟨rfl, rfl⟩

/-- C5 (amended): `handleRemoveSegment` never fails: for an in-range index it
removes exactly that element, with no effect on the other elements' relative
order; for any index outside `[0, length)` — including any index on an empty
queue and negative indices — it leaves the queue unmodified; in every case the
rest of the state, in particular the error channel, is untouched and no error
is raised. -/
theorem handleRemoveSegment_behavior (st : AppState) (index : ℤ) :
    (handleRemoveSegment st index).selectedSegments =
      (if 0 ≤ index ∧ index < (st.selectedSegments.length : ℤ) then
        st.selectedSegments.take index.toNat
          ++ st.selectedSegments.drop (index.toNat + 1)
      else st.selectedSegments) ∧
    (handleRemoveSegment st index).error = st.error ∧
    (handleRemoveSegment st index).status = st.status ∧
    (handleRemoveSegment st index).segments = st.segments ∧
    (handleRemoveSegment st index).finalVideoUrl = st.finalVideoUrl := by
  refine ⟨?_, rfl, rfl, rfl, rfl⟩
  by_cases h : 0 ≤ index ∧ index < (st.selectedSegments.length : ℤ)
  · rw [if_pos h]
    have hr := removeFilterGo_in_range index st.selectedSegments 0 h.1 (by omega)
    rw [sub_zero] at hr
    exact hr
  · rw [if_neg h]
    push_neg at h
    exact removeFilterGo_out_of_range index st.selectedSegments 0 (by omega)

/-- C6 counterexample: a segment with `endTime ≤ startTime` delivered in the
analysis result is stored in the session's segment set unchanged — it is
neither dropped nor rejected. -/
theorem startAnalysis_stores_invalid_entry :
    invalidSeg.endTime ≤ invalidSeg.startTime ∧
    invalidSeg ∈ (startAnalysis stIdle (Except.ok [invalidSeg])).segments := by
  constructor
  · norm_num [invalidSeg]
  · simp [startAnalysis]

/-- C6 (amended): on receipt of a successful analysis result the entries are
stored verbatim as the session's segments — no validation is performed and no
entry is dropped or rejected, so entries with `endTime ≤ startTime` or
`startTime < 0` do enter the segment set; the status becomes `READY`. -/
theorem startAnalysis_stores_verbatim (st : AppState) (segs : List SubtitleSegment) :
    (startAnalysis st (Except.ok segs)).segments = segs ∧
    (startAnalysis st (Except.ok segs)).status = AppStatus.READY ∧
    (startAnalysis st (Except.ok segs)).error = st.error :=
  ⟨rfl, rfl, rfl⟩

/-- A completed session with received segments, a queued segment and a
finished artifact. -/
def stCompletedHistory : AppState :=
  { status := AppStatus.COMPLETED, video := none, segments := [oneSecondSeg],
    selectedSegments := [oneSecondSeg], processingMsg := "", error := none,
    finalVideoUrl := some "blob:old" }

/-- C7 counterexample: uploading a new video from a completed session moves
the status to `ANALYZING`, but the previously received segments, the selection
queue and the previously completed artifact are all still present — nothing is
discarded. -/
theorem handleFileUpload_retains_prior_state :
    (handleFileUpload stCompletedHistory (some ⟨"new.mp4", 1⟩) "blob:new").status
      = AppStatus.ANALYZING ∧
    (handleFileUpload stCompletedHistory (some ⟨"new.mp4", 1⟩) "blob:new").segments
      = [oneSecondSeg] ∧
    (handleFileUpload stCompletedHistory (some ⟨"new.mp4", 1⟩) "blob:new").selectedSegments
      = [oneSecondSeg] ∧
    (handleFileUpload stCompletedHistory (some ⟨"new.mp4", 1⟩) "blob:new").finalVideoUrl
      = some "blob:old" :=
  ⟨rfl, rfl, rfl, rfl⟩

/-- C7 (amended): uploading a new video (when a file is chosen) moves the
state to `ANALYZING` and records the new video metadata (duration 0, new
object URL), but the prior segments, the selection queue and any previously
completed artifact are retained, not cleared — the stored segments are only
replaced when the new analysis later completes; choosing no file is a no-op. -/
theorem handleFileUpload_behavior (st : AppState) (f : UploadedFile) (url : String) :
    (handleFileUpload st (some f) url).status = AppStatus.ANALYZING ∧
    (handleFileUpload st (some f) url).video
      = some { name := f.name, size := f.size, duration := 0, url := url } ∧
    (handleFileUpload st (some f) url).segments = st.segments ∧
    (handleFileUpload st (some f) url).selectedSegments = st.selectedSegments ∧
    (handleFileUpload st (some f) url).finalVideoUrl = st.finalVideoUrl ∧
    handleFileUpload st none url = st :=
  ⟨rfl, rfl, rfl, rfl, rfl, rfl⟩

/-- C8: from `READY`, requesting generation with an empty selection queue
leaves the status at `READY`, touches neither the queue nor the segments nor
the artifact, and always sets the user-visible error message. -/
theorem generate_empty_queue_rejected (st : AppState)
    (composeResult : Except String String)
    (hready : st.status = AppStatus.READY) (hq : st.selectedSegments = []) :
    (handleGenerateFinalVideo st composeResult).status = AppStatus.READY ∧
    (handleGenerateFinalVideo st composeResult).selectedSegments = [] ∧
    (handleGenerateFinalVideo st composeResult).segments = st.segments ∧
    (handleGenerateFinalVideo st composeResult).finalVideoUrl = st.finalVideoUrl ∧
    (handleGenerateFinalVideo st composeResult).error = some emptyQueueMsg := by
  have hlen : st.selectedSegments.length = 0 := by rw [hq]; rfl
  have hgen : handleGenerateFinalVideo st composeResult
      = { st with error := some emptyQueueMsg } := by
    unfold handleGenerateFinalVideo
    rw [if_pos hlen]
  rw [hgen]
  exact ⟨hready, hq, rfl, rfl, rfl⟩

/-- A ready session with analysis results but an empty selection queue. -/
def stReadyEmpty : AppState :=
  { status := AppStatus.READY, video := none, segments := [oneSecondSeg],
    selectedSegments := [], processingMsg := "", error := none,
    finalVideoUrl := none }

/-- Witness for C8 at a concrete ready state with an empty queue. -/
theorem generate_empty_queue_rejected_witness :
    (handleGenerateFinalVideo stReadyEmpty (Except.ok "blob:out")).status
      = AppStatus.READY ∧
    (handleGenerateFinalVideo stReadyEmpty (Except.ok "blob:out")).selectedSegments
      = [] ∧
    (handleGenerateFinalVideo stReadyEmpty (Except.ok "blob:out")).segments
      = stReadyEmpty.segments ∧
    (handleGenerateFinalVideo stReadyEmpty (Except.ok "blob:out")).finalVideoUrl
      = stReadyEmpty.finalVideoUrl ∧
    (handleGenerateFinalVideo stReadyEmpty (Except.ok "blob:out")).error
      = some emptyQueueMsg :=
  generate_empty_queue_rejected stReadyEmpty (Except.ok "blob:out") rfl rfl

/-- C9: when the composition awaited by `handleGenerateFinalVideo` fails with
any error, the session that entered `GENERATING` returns to `READY`, the
failure is recorded in the error channel, the selection queue is untouched,
and the artifact field is unchanged — no partial or best-effort output is
exposed to the user. -/
theorem generate_failure_returns_ready (st : AppState) (msg : String)
    (hq : st.selectedSegments.length ≠ 0) :
    (generateStart st).status = AppStatus.GENERATING ∧
    handleGenerateFinalVideo st (Except.error msg)
      = generateFinish (generateStart st) (Except.error msg) ∧
    (handleGenerateFinalVideo st (Except.error msg)).status = AppStatus.READY ∧
    (handleGenerateFinalVideo st (Except.error msg)).error
      = some ("合成视频失败: " ++ (if msg = "" then "未知错误" else msg)) ∧
    (handleGenerateFinalVideo st (Except.error msg)).selectedSegments
      = st.selectedSegments ∧
    (handleGenerateFinalVideo st (Except.error msg)).finalVideoUrl
      = st.finalVideoUrl := by
  have hgen : handleGenerateFinalVideo st (Except.error msg)
      = generateFinish (generateStart st) (Except.error msg) := by
    unfold handleGenerateFinalVideo
    rw [if_neg hq]
  rw [hgen]
  exact ⟨rfl, rfl, rfl, rfl, rfl, rfl⟩

/-- Witness for C9 at a concrete ready state with one queued segment and a
media-load failure message. -/
theorem generate_failure_returns_ready_witness :
    (generateStart stSingleQueue).status = AppStatus.GENERATING ∧
    handleGenerateFinalVideo stSingleQueue (Except.error "视频加载失败")
      = generateFinish (generateStart stSingleQueue) (Except.error "视频加载失败") ∧
    (handleGenerateFinalVideo stSingleQueue (Except.error "视频加载失败")).status
      = AppStatus.READY ∧
    (handleGenerateFinalVideo stSingleQueue (Except.error "视频加载失败")).error
      = some ("合成视频失败: "
          ++ (if "视频加载失败" = "" then "未知错误" else "视频加载失败")) ∧
    (handleGenerateFinalVideo stSingleQueue (Except.error "视频加载失败")).selectedSegments
      = stSingleQueue.selectedSegments ∧
    (handleGenerateFinalVideo stSingleQueue (Except.error "视频加载失败")).finalVideoUrl
      = stSingleQueue.finalVideoUrl :=
  generate_failure_returns_ready stSingleQueue "视频加载失败" (by simp [stSingleQueue])
